import Mathlib

/-!
Verification of the mr-system product-catalog application.

The repository's frontend (TypeScript, under `src/frontend` and the unnamed
parts) is embedded directly; the Python backend (pipeline orchestrator,
result merger, price enrichment) is not present under `src/`, so those
components are modelled from the specification, as marked on each
definition.

Strings are modelled with Lean's `String`; the JavaScript string operations
`toLowerCase`, `trim`, `includes` and `startsWith` are embedded as
character-list functions over `String.data` (ASCII-faithful, which covers
every comparison the claims exercise).
-/

namespace MrSystem

/-- ASCII lower-casing of one character (model of JS `toLowerCase`). -/
def lowerChar (c : Char) : Char :=
  if 'A' ≤ c ∧ c ≤ 'Z' then Char.ofNat (c.toNat + 32) else c

/-- Model of JS `String.prototype.toLowerCase` (ASCII). -/
def toLowerStr (s : String) : String :=
  String.mk (s.data.map lowerChar)

/-- Whitespace test used by the `trim` model. -/
def isWs (c : Char) : Bool :=
  c == ' ' || c == '\t' || c == '\n' || c == '\r'

/-- Model of JS `String.prototype.trim`. -/
def trimStr (s : String) : String :=
  String.mk (((s.data.dropWhile isWs).reverse.dropWhile isWs).reverse)

/-- Does the second list occur as a prefix of the first? -/
def startsWithList : List Char → List Char → Bool
  | _, [] => true
  | [], _ :: _ => false
  | a :: as, b :: bs => a == b && startsWithList as bs

/-- Model of JS `String.prototype.startsWith`. -/
def strStartsWith (s p : String) : Bool :=
  startsWithList s.data p.data

/-- Does `needle` occur as a contiguous sublist of the argument? -/
def containsList (needle : List Char) : List Char → Bool
  | [] => startsWithList [] needle
  | c :: rest => startsWithList (c :: rest) needle || containsList needle rest

/-- Model of JS `String.prototype.includes`. -/
def strIncludes (s sub : String) : Bool :=
  containsList sub.data s.data

/-! ## Data model

`NutritionInfo` and the product field shape follow
`src/frontend/src/types/index.ts`; `ExtractionCandidate` follows §3 of the
specification (the backend schema file is not under `src/`).  Optional
fields are `Option String`: `none` is an absent field, `some ""` an empty
value, kept distinct as the spec requires. -/

/-- Nutrition mapping from `src/frontend/src/types/index.ts`: exactly seven
fixed optional nutrient keys. -/
structure NutritionInfo where
  energy : Option String
  protein : Option String
  fat : Option String
  carbs : Option String
  sugar : Option String
  fiber : Option String
  salt : Option String
deriving DecidableEq, Repr

/-- The seven nutrient key names of `NutritionInfo`. -/
def nutrientKeys : List String :=
  ["energy", "protein", "fat", "carbs", "sugar", "fiber", "salt"]

/-- The key/value pairs actually present in a `NutritionInfo`: each field
contributes its fixed key name when the value is present. -/
def nutritionPairs (n : NutritionInfo) : List (String × String) :=
  (match n.energy with | some v => [("energy", v)] | none => []) ++
  (match n.protein with | some v => [("protein", v)] | none => []) ++
  (match n.fat with | some v => [("fat", v)] | none => []) ++
  (match n.carbs with | some v => [("carbs", v)] | none => []) ++
  (match n.sugar with | some v => [("sugar", v)] | none => []) ++
  (match n.fiber with | some v => [("fiber", v)] | none => []) ++
  (match n.salt with | some v => [("salt", v)] | none => [])

/-- Modelled from the spec (§3): the backend per-image extraction result
(`backend/services/gemini_extractor.py` is not under `src/`).  Optional
scalar fields, optional list fields, optional category, optional
nutrition. -/
structure ExtractionCandidate where
  product_name : Option String
  volume : Option String
  manufacturer : Option String
  seller : Option String
  ingredients : List String
  appeals : List String
  category : Option String
  nutrition : Option NutritionInfo
deriving DecidableEq, Repr

/-- A candidate with every field absent (a fully degraded extraction). -/
def emptyCandidate : ExtractionCandidate :=
  { product_name := none, volume := none, manufacturer := none,
    seller := none, ingredients := [], appeals := [],
    category := none, nutrition := none }

/-- The fixed category set of `src/frontend/src/types/index.ts`
(`CATEGORIES`). -/
def CATEGORIES : List String :=
  ["Chocolate", "Gummy", "Cookie", "Snack", "Donut", "Jelly", "Other"]

/-! ## Result Merger (modelled from the spec, §4.3) -/

/-- Modelled from the spec (§4.3): first non-empty value in candidate
order; an absent field and an empty string are both passed over. -/
def firstNonEmpty : List (Option String) → Option String
  | [] => none
  | none :: rest => firstNonEmpty rest
  | some s :: rest => if s == "" then firstNonEmpty rest else some s

/-- Trimmed, lower-cased comparison key for list de-duplication (§4.3). -/
def normKey (s : String) : String := toLowerStr (trimStr s)

/-- Membership of a key in the already-seen key list. -/
def seenHas (seen : List String) (k : String) : Bool :=
  match seen with
  | [] => false
  | s :: rest => (s == k) || seenHas rest k

/-- Modelled from the spec (§4.3): union preserving first-seen order with
case-insensitive de-duplication; `seen` accumulates the normalized keys
already emitted, and the first-seen casing is kept. -/
def dedupByNorm (seen : List String) : List String → List String
  | [] => []
  | x :: xs =>
    if seenHas seen (normKey x) then dedupByNorm seen xs
    else x :: dedupByNorm (normKey x :: seen) xs

/-- Modelled from the spec (§4.3): first candidate with a present,
non-`Other` category wins; otherwise `Other`. -/
def mergeCategory : List ExtractionCandidate → String
  | [] => "Other"
  | c :: cs =>
    match c.category with
    | none => mergeCategory cs
    | some cat => if cat == "Other" then mergeCategory cs else cat

/-- Modelled from the spec (§4.3): per-nutrient-key independent
first-non-empty merge over the candidates' nutrition maps. -/
def mergeNutrition (cs : List ExtractionCandidate) : NutritionInfo :=
  let ns := cs.filterMap (fun c => c.nutrition)
  { energy := firstNonEmpty (ns.map (fun n => n.energy)),
    protein := firstNonEmpty (ns.map (fun n => n.protein)),
    fat := firstNonEmpty (ns.map (fun n => n.fat)),
    carbs := firstNonEmpty (ns.map (fun n => n.carbs)),
    sugar := firstNonEmpty (ns.map (fun n => n.sugar)),
    fiber := firstNonEmpty (ns.map (fun n => n.fiber)),
    salt := firstNonEmpty (ns.map (fun n => n.salt)) }

/-- The merged canonical field set produced by the Result Merger. -/
structure MergedFields where
  product_name : Option String
  volume : Option String
  manufacturer : Option String
  seller : Option String
  ingredients : List String
  appeals : List String
  category : String
  nutrition : NutritionInfo
deriving DecidableEq, Repr

/-- Modelled from the spec (§4.3): the backend Result Merger
(`backend/services/gemini_extractor.py` merge logic is not under `src/`).
Pure and deterministic; scalar fields take the first non-empty value in
candidate order, list fields the case-insensitively de-duplicated union. -/
def merge (cs : List ExtractionCandidate) : MergedFields :=
  { product_name := firstNonEmpty (cs.map (fun c => c.product_name)),
    volume := firstNonEmpty (cs.map (fun c => c.volume)),
    manufacturer := firstNonEmpty (cs.map (fun c => c.manufacturer)),
    seller := firstNonEmpty (cs.map (fun c => c.seller)),
    ingredients := dedupByNorm [] (cs.map (fun c => c.ingredients)).flatten,
    appeals := dedupByNorm [] (cs.map (fun c => c.appeals)).flatten,
    category := mergeCategory cs,
    nutrition := mergeNutrition cs }

/-- The claim's reading of the scalar rule, stated independently of the
merger: among the values present, the first one that is non-empty. -/
def specFirstNonEmpty (l : List (Option String)) : Option String :=
  (l.filterMap id).find? (fun s => !(s == ""))

/-- The claim's reading of the list rule, stated independently of the
merger: keep each element and drop every later element whose normalized
key matches it. -/
def keepFirsts : List String → List String
  | [] => []
  | x :: xs =>
    x :: keepFirsts (xs.filter (fun y => !(normKey x == normKey y)))
termination_by l => l.length
decreasing_by
  simp_wf
  exact Nat.lt_succ_of_le (List.length_filter_le _ _)

/-! ## Upload modal (`UploadModal` in `src/unnamed/part_004`) -/

/-- The metadata of one browser `File` that `validateAndAddFiles`
inspects: `name`, `type` (declared media type) and `size` in bytes. -/
structure FileMeta where
  name : String
  type : String
  size : Nat
deriving DecidableEq, Repr

/-- The size ceiling of `validateAndAddFiles`: `10 * 1024 * 1024` bytes. -/
def sizeLimit : Nat := 10 * 1024 * 1024

/-- The validation outcome for one file in `validateAndAddFiles`: the error
message pushed for it, or `none` when it passes both checks.  Mirrors the
two early-return branches of the source. -/
def fileError (file : FileMeta) : Option String :=
  if !(strStartsWith file.type "image/") then
    some (file.name ++ ": 画像ファイルではありません")
  else if file.size > 10 * 1024 * 1024 then
    some (file.name ++ ": 10MBを超えています")
  else none

/-- The duplicate test of `validateAndAddFiles`:
`images.some(img => img.file.name === file.name && img.file.size === file.size)`.
Note it consults only `images`, the selection state captured when the call
began. -/
def dupOf (images : List FileMeta) (file : FileMeta) : Bool :=
  images.any (fun img => img.name == file.name && img.size == file.size)

/-- One iteration of the `forEach` body of `validateAndAddFiles`: a failed
check appends an error, a duplicate of an already-selected image is skipped
silently, anything else is appended to `newImages`.  The duplicate check
reads `images`, not the `newImages` accumulator. -/
def vStep (images : List FileMeta) (acc : List String × List FileMeta)
    (file : FileMeta) : List String × List FileMeta :=
  match fileError file with
  | some e => (acc.1 ++ [e], acc.2)
  | none =>
    if dupOf images file then acc
    else (acc.1, acc.2 ++ [file])

/-- `validateAndAddFiles` from `src/unnamed/part_004`: folds the `forEach`
body over the incoming files and returns the collected error messages
together with the updated selection `images ++ newImages`. -/
def validateAndAddFiles (images files : List FileMeta) :
    List String × List FileMeta :=
  let r := files.foldl (vStep images) ([], [])
  (r.1, images ++ r.2)

/-- The files a call to `validateAndAddFiles` appends to the selection:
those that pass both checks and do not duplicate an already-selected
image.  (Characterization of the fold, proved below.) -/
def newFiles (images files : List FileMeta) : List FileMeta :=
  files.filter (fun f => fileError f == none && !(dupOf images f))

/-- The `handleUpload` guard of `src/unnamed/part_004`: the submission is
rejected with a validation error exactly when the selected batch is
empty (`if (images.length === 0)`). -/
def handleUploadRejected (images : List FileMeta) : Bool :=
  images.length == 0

/-! ## Product display and filtering (`src/unnamed/part_004`, `part_005`) -/

/-- The fields of the frontend `Product` type
(`src/frontend/src/types/index.ts`) that the display and filtering code
reads.  JS string falsiness (`||` fallbacks) is modelled by the empty
string. -/
structure Product where
  product_name : String
  manufacturer : String
  appeals : List String
  category : String
  price_info : String
  product_url : Option String
  image_paths : List String
deriving DecidableEq, Repr

/-- `ProductCard` title: `product.product_name || "Unknown Product"`. -/
def displayName (name : String) : String :=
  if name == "" then "Unknown Product" else name

/-- `ProductCard` price line: `product.price_info || "Price TBD"`. -/
def displayPrice (price : String) : String :=
  if price == "" then "Price TBD" else price

/-- `ProductCard` category badge: `product.category || "Other"`. -/
def displayCategory (cat : String) : String :=
  if cat == "" then "Other" else cat

/-- The search predicate of `filteredProducts` in `src/unnamed/part_005`:
name, manufacturer or some appeal contains the lower-cased query. -/
def matchesQuery (query : String) (p : Product) : Bool :=
  strIncludes (toLowerStr p.product_name) query ||
  strIncludes (toLowerStr p.manufacturer) query ||
  p.appeals.any (fun a => strIncludes (toLowerStr a) query)

/-- `filteredProducts` from `src/unnamed/part_005`: filter by the selected
category unless it is "All", then by the trimmed search query unless it is
empty. -/
def filteredProducts (products : List Product)
    (selectedCategory searchQuery : String) : List Product :=
  let r1 :=
    if !(selectedCategory == "All") then
      products.filter (fun p => p.category == selectedCategory)
    else products
  if !(trimStr searchQuery == "") then
    let query := toLowerStr searchQuery
    r1.filter (matchesQuery query)
  else r1

/-- The category options offered by the `EditProductModal` select in
`src/unnamed/part_005`: it renders exactly `CATEGORIES.map(...)`. -/
def editFormCategoryOptions : List String := CATEGORIES

/-- The initial category shown by `EditProductModal`:
`product.category || "Other"`. -/
def editInitialCategory (cat : String) : String :=
  if cat == "" then "Other" else cat

/-- Modelled from the spec (§4.2): the backend Extraction Client
(`backend/services/gemini_extractor.py` is not under `src/`) coerces a
category outside the fixed enumerated set, or an absent one, to
`Other`. -/
def coerceCategory (cat : Option String) : String :=
  match cat with
  | none => "Other"
  | some c => if c ∈ CATEGORIES then c else "Other"

/-! ## Pipeline orchestrator (modelled from the spec, §4.4–§4.5)

The backend orchestrator (`backend/main.py`) and the price enrichment
client (`backend/services/searcher.py`) are not under `src/`; both are
modelled from the specification. -/

/-- Modelled from the spec (§4.4): the outcome of one price lookup —
success with a price string and source URL, or one of the three failure
reasons. -/
inductive PriceOutcome where
  | found (price : String) (url : String)
  | searchUnavailable
  | noResults
  | parseFailed
deriving DecidableEq, Repr

/-- Modelled from the spec (§4.4): the price enrichment client returns, on
any failure, the placeholder display string "Price TBD" and no URL; it
never raises. -/
def priceResult : PriceOutcome → String × Option String
  | PriceOutcome.found p u => (p, some u)
  | PriceOutcome.searchUnavailable => ("Price TBD", none)
  | PriceOutcome.noResults => ("Price TBD", none)
  | PriceOutcome.parseFailed => ("Price TBD", none)

/-- Is the price outcome one of the three failures? -/
def priceFailed : PriceOutcome → Bool
  | PriceOutcome.found _ _ => false
  | _ => true

/-- Modelled from the spec (§4.5): the orchestrator's states. -/
inductive PState where
  | Received
  | Storing
  | Extracting
  | Merging
  | Enriching
  | Persisting
  | Done
  | Failed
deriving DecidableEq, Repr

/-- Modelled from the spec (§4.5, §5): the outcomes of the external
interactions during one pipeline run on an already-validated batch —
per-image storage results (position-indexed, `none` is a storage failure),
per-stored-image extraction candidates (failures already degraded to empty
candidates per §4.2), the price-lookup outcome, and whether the final
record-store write succeeds. -/
structure PipelineEnv where
  batch : List FileMeta
  storeRefs : List (Option String)
  extracted : List ExtractionCandidate
  price : PriceOutcome
  persistOk : Bool

/-- The image references that stored successfully, in batch order. -/
def storedPaths (env : PipelineEnv) : List String :=
  env.storeRefs.filterMap id

/-- Modelled from the spec (§4.5): one transition of the orchestrator.
`Storing` fails only when every image failed to store; `Extracting`,
`Merging` and `Enriching` cannot fail; `Persisting` fails exactly when the
record-store write fails; `Done` and `Failed` are absorbing. -/
def step (env : PipelineEnv) : PState → PState
  | PState.Received => PState.Storing
  | PState.Storing =>
    if storedPaths env = [] then PState.Failed else PState.Extracting
  | PState.Extracting => PState.Merging
  | PState.Merging => PState.Enriching
  | PState.Enriching => PState.Persisting
  | PState.Persisting =>
    if env.persistOk then PState.Done else PState.Failed
  | PState.Done => PState.Done
  | PState.Failed => PState.Failed

/-- The state after `n` transitions from `Received`. -/
def runState (env : PipelineEnv) : Nat → PState
  | 0 => PState.Received
  | n + 1 => step env (runState env n)

/-- Modelled from the spec (§3, §4.5): the fully-initialized canonical
record assembled at `Persisting` — merged fields, price enrichment result,
and the stored image references.  An absent merged name is stored
empty/null (modelled as the empty string), never as a display sentinel. -/
def fullRecord (env : PipelineEnv) : Product :=
  let m := merge env.extracted
  { product_name := m.product_name.getD "",
    manufacturer := m.manufacturer.getD "",
    appeals := m.appeals,
    category := m.category,
    price_info := (priceResult env.price).1,
    product_url := (priceResult env.price).2,
    image_paths := storedPaths env }

/-- The caller-visible result of one run: the persisted record when the
pipeline reaches `Done`, nothing otherwise. -/
def pipelineResult (env : PipelineEnv) : Option Product :=
  if runState env 6 = PState.Done then some (fullRecord env) else none

/-! ## Theorems -/

example : toLowerStr "SuGar" = "sugar" := by decide
example : trimStr "  a b  " = "a b" := by decide
example : strStartsWith "image/png" "image/" = true := by decide
example : strIncludes "chocolate bar" "late" = true := by decide
example : strIncludes "chocolate bar" "xyz" = false := by decide

lemma firstNonEmpty_eq_spec (l : List (Option String)) :
    firstNonEmpty l = specFirstNonEmpty l := by
  induction l with
  | nil => rfl
  | cons o rest ih =>
    cases o with
    | none => simpa [firstNonEmpty, specFirstNonEmpty] using ih
    | some s =>
      cases h : (s == "") with
      | true =>
        simpa [firstNonEmpty, specFirstNonEmpty, h] using ih
      | false =>
        simp [firstNonEmpty, specFirstNonEmpty, h]

lemma seenHas_cons (k m : String) (seen : List String) :
    seenHas (k :: seen) m = ((k == m) || seenHas seen m) := rfl

lemma dedupByNorm_eq_keepFirsts (xs : List String) :
    ∀ seen, dedupByNorm seen xs
      = keepFirsts (xs.filter (fun y => !(seenHas seen (normKey y)))) := by
  induction xs with
  | nil => intro seen; simp [dedupByNorm, keepFirsts]
  | cons x xs ih =>
    intro seen
    cases h : seenHas seen (normKey x) with
    | true =>
      simp only [dedupByNorm, h, if_true, List.filter_cons, Bool.not_true,
        Bool.false_eq_true, if_false]
      exact ih seen
    | false =>
      simp only [dedupByNorm, h, Bool.false_eq_true, if_false,
        List.filter_cons, Bool.not_false, if_true]
      rw [keepFirsts, ih (normKey x :: seen), List.filter_filter]
      have hfc : List.filter (fun y => !(seenHas (normKey x :: seen) (normKey y))) xs
          = List.filter
              (fun y => !(normKey x == normKey y) && !(seenHas seen (normKey y))) xs := by
        apply List.filter_congr
        intro y _
        rw [seenHas_cons, Bool.not_or]
      rw [hfc]

lemma merge_lists_eq_keepFirsts (cs : List ExtractionCandidate) :
    (merge cs).ingredients
      = keepFirsts ((cs.map (fun c => c.ingredients)).flatten) ∧
    (merge cs).appeals
      = keepFirsts ((cs.map (fun c => c.appeals)).flatten) := by
  constructor <;>
  · show dedupByNorm [] _ = _
    rw [dedupByNorm_eq_keepFirsts]
    congr 1
    exact List.filter_true _

/-- C1: for every ordered candidate sequence, each scalar field
(product_name, volume, manufacturer, seller) of the merger's output is the
first non-empty value among the present values in candidate order; and the
two concrete examples: `[{name:"A"}, {name:"B"}]` merges to name `"A"`,
`[{name: absent}, {name:"B"}]` merges to name `"B"`. -/
theorem merge_scalar_first_nonEmpty :
    (∀ cs : List ExtractionCandidate,
      (merge cs).product_name
          = specFirstNonEmpty (cs.map (fun c => c.product_name)) ∧
      (merge cs).volume = specFirstNonEmpty (cs.map (fun c => c.volume)) ∧
      (merge cs).manufacturer
          = specFirstNonEmpty (cs.map (fun c => c.manufacturer)) ∧
      (merge cs).seller
          = specFirstNonEmpty (cs.map (fun c => c.seller))) ∧
    (merge [{ emptyCandidate with product_name := some "A" },
            { emptyCandidate with product_name := some "B" }]).product_name
        = some "A" ∧
    (merge [emptyCandidate,
            { emptyCandidate with product_name := some "B" }]).product_name
        = some "B" := by
  refine ⟨fun cs => ⟨?_, ?_, ?_, ?_⟩, by decide, by decide⟩ <;>
    exact firstNonEmpty_eq_spec _

/-- C2: for every ordered candidate sequence, each list field
(ingredients, appeals) of the merger's output is the concatenation of all
candidates' lists with every later element dropped whose trimmed,
lower-cased form matches an earlier one (first-seen order and casing
kept); and the concrete example:
`[{ingredients:["Sugar","Salt"]}, {ingredients:["sugar","Cocoa"]}]` merges
to `["Sugar","Salt","Cocoa"]`. -/
theorem merge_list_union_dedup :
    (∀ cs : List ExtractionCandidate,
      (merge cs).ingredients
          = keepFirsts ((cs.map (fun c => c.ingredients)).flatten) ∧
      (merge cs).appeals
          = keepFirsts ((cs.map (fun c => c.appeals)).flatten)) ∧
    (merge [{ emptyCandidate with ingredients := ["Sugar", "Salt"] },
            { emptyCandidate with ingredients := ["sugar", "Cocoa"] }]).ingredients
        = ["Sugar", "Salt", "Cocoa"] := by
  exact ⟨merge_lists_eq_keepFirsts, by decide⟩

lemma vfoldl_char (images files : List FileMeta) :
    ∀ es ns, files.foldl (vStep images) (es, ns)
      = (es ++ files.filterMap fileError, ns ++ newFiles images files) := by
  induction files with
  | nil => intro es ns; simp [newFiles]
  | cons f fs ih =>
    intro es ns
    cases hfe : fileError f with
    | some e =>
      simp [vStep, hfe, ih, newFiles, List.filterMap_cons, List.filter_cons]
    | none =>
      cases hd : dupOf images f with
      | true =>
        simp [vStep, hfe, hd, ih, newFiles, List.filterMap_cons,
          List.filter_cons]
      | false =>
        simp [vStep, hfe, hd, ih, newFiles, List.filterMap_cons,
          List.filter_cons]

lemma validateAndAddFiles_char (images files : List FileMeta) :
    validateAndAddFiles images files
      = (files.filterMap fileError, images ++ newFiles images files) := by
  simp [validateAndAddFiles, vfoldl_char]

lemma fileError_none_iff (f : FileMeta) :
    fileError f = none ↔
      (strStartsWith f.type "image/" = true ∧ f.size ≤ sizeLimit) := by
  cases hs : strStartsWith f.type "image/" with
  | false => simp [fileError, hs]
  | true =>
    by_cases hgt : f.size > 10 * 1024 * 1024
    all_goals simp [fileError, sizeLimit, hs, hgt]
    all_goals omega

/-- C4: at the upload boundary, a file is accepted into the batch only if
its declared media type starts with `"image/"` and its size is at most
`10 * 1024 * 1024` bytes; `validateAndAddFiles` reports a validation error
exactly when some passed file violates one of the two checks; and a one-shot
submission (select into an empty batch, then `handleUpload`) is rejected
with a validation error exactly when the file list is empty or some file
violates a check. -/
theorem upload_validation :
    (∀ images files f, f ∈ newFiles images files →
        strStartsWith f.type "image/" = true ∧ f.size ≤ sizeLimit) ∧
    (∀ images files : List FileMeta,
        (validateAndAddFiles images files).1 ≠ [] ↔
          ∃ f ∈ files,
            ¬(strStartsWith f.type "image/" = true) ∨ f.size > sizeLimit) ∧
    (∀ files : List FileMeta,
        ((validateAndAddFiles [] files).1 ≠ [] ∨
            handleUploadRejected (validateAndAddFiles [] files).2 = true) ↔
          (files = [] ∨
            ∃ f ∈ files,
              ¬(strStartsWith f.type "image/" = true) ∨
                f.size > sizeLimit)) := by
  have hbadIff : ∀ f : FileMeta, fileError f ≠ none ↔
      (¬(strStartsWith f.type "image/" = true) ∨ f.size > sizeLimit) := by
    intro f
    rw [Ne, fileError_none_iff]
    constructor
    · intro h
      by_contra hcon
      push_neg at hcon
      exact h ⟨hcon.1, hcon.2⟩
    · rintro (hb | hb) ⟨h1, h2⟩
      · exact hb h1
      · exact Nat.not_le_of_lt hb h2
  have herr0 : ∀ files : List FileMeta,
      files.filterMap fileError ≠ [] ↔ ∃ f ∈ files, fileError f ≠ none := by
    intro files
    simp [List.filterMap_eq_nil_iff]
  have haccept : ∀ images files f, f ∈ newFiles images files →
      strStartsWith f.type "image/" = true ∧ f.size ≤ sizeLimit := by
    intro images files f hf
    have hand := (List.mem_filter.mp hf).2
    rw [Bool.and_eq_true] at hand
    exact (fileError_none_iff f).mp (by simpa using hand.1)
  have herr : ∀ images files : List FileMeta,
      (validateAndAddFiles images files).1 ≠ [] ↔
        ∃ f ∈ files,
          ¬(strStartsWith f.type "image/" = true) ∨ f.size > sizeLimit := by
    intro images files
    rw [validateAndAddFiles_char]
    show files.filterMap fileError ≠ [] ↔ _
    rw [herr0]
    constructor
    · rintro ⟨f, hf, hne⟩
      exact ⟨f, hf, (hbadIff f).mp hne⟩
    · rintro ⟨f, hf, hbad⟩
      exact ⟨f, hf, (hbadIff f).mpr hbad⟩
  refine ⟨haccept, herr, fun files => ?_⟩
  have hnew : newFiles [] files = [] ↔ ∀ f ∈ files, fileError f ≠ none := by
    simp [newFiles, List.filter_eq_nil_iff, dupOf]
  rw [validateAndAddFiles_char]
  show (files.filterMap fileError ≠ [] ∨
      handleUploadRejected ([] ++ newFiles [] files) = true) ↔ _
  have hrej : handleUploadRejected ([] ++ newFiles [] files) = true ↔
      newFiles [] files = [] := by
    simp [handleUploadRejected, List.length_eq_zero]
  rw [herr0, hrej, hnew]
  constructor
  · rintro (⟨f, hf, hne⟩ | hall)
    · exact Or.inr ⟨f, hf, (hbadIff f).mp hne⟩
    · cases files with
      | nil => exact Or.inl rfl
      | cons f fs =>
        exact Or.inr ⟨f, by simp, (hbadIff f).mp (hall f (by simp))⟩
  · rintro (rfl | ⟨f, hf, hbad⟩)
    · exact Or.inr (by simp)
    · exact Or.inl ⟨f, hf, (hbadIff f).mpr hbad⟩

/-- Witness for C4: a concrete PNG of 500 bytes is accepted, so its type
starts with `"image/"` and its size is within the ceiling. -/
theorem upload_validation_witness :
    strStartsWith ("image/png" : String) "image/" = true ∧
      (500 : Nat) ≤ sizeLimit :=
  upload_validation.1 [] [⟨"a.png", "image/png", 500⟩]
    ⟨"a.png", "image/png", 500⟩ (by decide)

/-- C9 counterexample: passing the same valid file twice in one call to
`validateAndAddFiles` (empty prior selection) puts two entries with the
same name and size into the batch — the duplicate check consults only the
selection captured at call start, not the files accepted earlier in the
same call.  This refutes "the selected batch never contains two entries
with the same (name, size) pair". -/
theorem dup_pair_counterexample :
    ¬ List.Pairwise (fun a b : FileMeta => a.name ≠ b.name ∨ a.size ≠ b.size)
      (validateAndAddFiles []
        [⟨"a.png", "image/png", 100⟩, ⟨"a.png", "image/png", 100⟩]).2 := by
  decide

/-- C9 (amended): a valid file whose name and size both equal those of an
already-selected image is silently skipped (a call consisting of such a
file leaves the selection unchanged), and no file newly accepted by a call
duplicates any image already selected before the call; equal files arriving
within the same call, however, are each accepted. -/
theorem dup_skip_amended :
    (∀ (images : List FileMeta) (f : FileMeta), fileError f = none →
        dupOf images f = true → validateAndAddFiles images [f] = ([], images)) ∧
    (∀ images files f, f ∈ newFiles images files → dupOf images f = false) ∧
    (∀ images files f, f ∈ (validateAndAddFiles images files).2 →
        f ∈ images ∨ dupOf images f = false) := by
  have hskip : ∀ (images : List FileMeta) (f : FileMeta), fileError f = none →
      dupOf images f = true →
      validateAndAddFiles images [f] = ([], images) := by
    intro images f h1 h2
    simp [validateAndAddFiles, vStep, h1, h2]
  have hnodup : ∀ images files f, f ∈ newFiles images files →
      dupOf images f = false := by
    intro images files f hf
    have hand := (List.mem_filter.mp hf).2
    rw [Bool.and_eq_true] at hand
    simpa using hand.2
  refine ⟨hskip, hnodup, fun images files f hf => ?_⟩
  rw [validateAndAddFiles_char] at hf
  rcases List.mem_append.mp hf with hl | hr
  · exact Or.inl hl
  · exact Or.inr (hnodup images files f hr)

/-- Witness for C9 (amended): a call passing one file equal in name and
size to the already-selected image leaves the selection unchanged. -/
theorem dup_skip_amended_witness :
    validateAndAddFiles [⟨"a.png", "image/png", 100⟩]
        [⟨"a.png", "image/png", 100⟩]
      = ([], [⟨"a.png", "image/png", 100⟩]) :=
  dup_skip_amended.1 [⟨"a.png", "image/png", 100⟩]
    ⟨"a.png", "image/png", 100⟩ (by decide) (by decide)

/-- C3: for every non-empty batch, after its six transitions the pipeline
is in `Done` or `Failed` and stays there (it never hangs); a transition
into `Failed` from a non-`Failed` state happens only from `Storing` (total
storage failure) or `Persisting` (persistence failure); and the caller
receives the fully-assembled record exactly on `Done`, nothing on
`Failed` — never a partially-initialized record. -/
theorem pipeline_terminal :
    ∀ env : PipelineEnv, env.batch ≠ [] →
      ((runState env 6 = PState.Done ∨ runState env 6 = PState.Failed) ∧
       (∀ n, runState env (6 + n) = runState env 6) ∧
       (∀ s, s ≠ PState.Failed → step env s = PState.Failed →
          s = PState.Storing ∨ s = PState.Persisting) ∧
       (runState env 6 = PState.Done →
          pipelineResult env = some (fullRecord env)) ∧
       (runState env 6 = PState.Failed → pipelineResult env = none)) := by
  intro env _
  have h6 : runState env 6 = PState.Done ∨ runState env 6 = PState.Failed := by
    by_cases hs : storedPaths env = []
    · right
      simp [runState, step, hs]
    · by_cases hp : env.persistOk
      · left
        simp [runState, step, hs, hp]
      · right
        simp [runState, step, hs, hp]
  have hstay : step env (runState env 6) = runState env 6 := by
    rcases h6 with h | h <;> rw [h] <;> rfl
  refine ⟨h6, ?_, ?_, ?_, ?_⟩
  · intro n
    induction n with
    | zero => rfl
    | succ n ih =>
      have : 6 + (n + 1) = (6 + n) + 1 := rfl
      rw [this, runState, ih, hstay]
  · intro s hne hfail
    cases s with
    | Received => simp [step] at hfail
    | Storing => exact Or.inl rfl
    | Extracting => simp [step] at hfail
    | Merging => simp [step] at hfail
    | Enriching => simp [step] at hfail
    | Persisting => exact Or.inr rfl
    | Done => simp [step] at hfail
    | Failed => exact absurd rfl hne
  · intro h
    simp [pipelineResult, h]
  · intro h
    simp [pipelineResult, h]

/-- Witness for C3: a one-image batch that stores and persists cleanly
ends in `Done` or `Failed` (here `Done`). -/
theorem pipeline_terminal_witness :
    runState { batch := [⟨"a.png", "image/png", 100⟩],
               storeRefs := [some "/uploads/a.png"],
               extracted := [emptyCandidate],
               price := PriceOutcome.noResults,
               persistOk := true } 6 = PState.Done ∨
    runState { batch := [⟨"a.png", "image/png", 100⟩],
               storeRefs := [some "/uploads/a.png"],
               extracted := [emptyCandidate],
               price := PriceOutcome.noResults,
               persistOk := true } 6 = PState.Failed :=
  (pipeline_terminal
    { batch := [⟨"a.png", "image/png", 100⟩],
      storeRefs := [some "/uploads/a.png"],
      extracted := [emptyCandidate],
      price := PriceOutcome.noResults,
      persistOk := true } (by decide)).1

/-- C6: a failed price lookup (`search_unavailable`, `no_results` or
`parse_failed`) yields the placeholder result `("Price TBD", no URL)`; the
price outcome never changes which terminal state the pipeline reaches; the
assembled record carries `price_info = "Price TBD"` and no product URL,
`ProductCard` displays exactly `"Price TBD"`, and on `Done` the record is
still created. -/
theorem price_failure_soft :
    ∀ env : PipelineEnv, priceFailed env.price = true →
      priceResult env.price = ("Price TBD", none) ∧
      (∀ p', runState { env with price := p' } 6 = runState env 6) ∧
      (fullRecord env).price_info = "Price TBD" ∧
      (fullRecord env).product_url = none ∧
      displayPrice (fullRecord env).price_info = "Price TBD" ∧
      (runState env 6 = PState.Done →
        pipelineResult env = some (fullRecord env)) := by
  intro env hfail
  have hpr : priceResult env.price = ("Price TBD", none) := by
    cases hp : env.price with
    | found p u => rw [hp] at hfail; simp [priceFailed] at hfail
    | searchUnavailable => rfl
    | noResults => rfl
    | parseFailed => rfl
  have hstep : ∀ p', step { env with price := p' } = step env := by
    intro p'
    funext s
    cases s <;> rfl
  have hrun : ∀ p' n, runState { env with price := p' } n = runState env n := by
    intro p' n
    induction n with
    | zero => rfl
    | succ n ih => rw [runState, runState, ih, hstep]
  have hpi : (fullRecord env).price_info = "Price TBD" := by
    show (priceResult env.price).1 = "Price TBD"
    rw [hpr]
  refine ⟨hpr, fun p' => hrun p' 6, hpi, ?_, ?_, ?_⟩
  · show (priceResult env.price).2 = none
    rw [hpr]
  · rw [hpi]
    rfl
  · intro h
    simp [pipelineResult, h]

/-- Witness for C6: with a `no_results` lookup the assembled record
displays exactly "Price TBD". -/
theorem price_failure_soft_witness :
    displayPrice (fullRecord
      { batch := [⟨"a.png", "image/png", 100⟩],
        storeRefs := [some "/uploads/a.png"],
        extracted := [emptyCandidate],
        price := PriceOutcome.noResults,
        persistOk := true }).price_info = "Price TBD" :=
  (price_failure_soft
    { batch := [⟨"a.png", "image/png", 100⟩],
      storeRefs := [some "/uploads/a.png"],
      extracted := [emptyCandidate],
      price := PriceOutcome.noResults,
      persistOk := true } (by decide)).2.2.2.2.1

lemma firstNonEmpty_all_none (l : List (Option String))
    (h : ∀ o ∈ l, o = none) : firstNonEmpty l = none := by
  induction l with
  | nil => rfl
  | cons o rest ih =>
    have ho := h o (by simp)
    subst ho
    exact ih (fun o hm => h o (by simp [hm]))

/-- C7: when extraction yields no product name for any image, the pipeline
stores an empty name — never the sentinel — and the `ProductCard` display
layer substitutes "Unknown Product" at display time only. -/
theorem unknown_product_display_only :
    ∀ env : PipelineEnv,
      (∀ c ∈ env.extracted, c.product_name = none) →
      (fullRecord env).product_name = "" ∧
      displayName (fullRecord env).product_name = "Unknown Product" ∧
      (fullRecord env).product_name ≠ "Unknown Product" := by
  intro env hall
  have h1 : (fullRecord env).product_name = "" := by
    show ((merge env.extracted).product_name).getD "" = ""
    have hm : (merge env.extracted).product_name = none := by
      show firstNonEmpty (env.extracted.map (fun c => c.product_name)) = none
      apply firstNonEmpty_all_none
      intro o ho
      rcases List.mem_map.mp ho with ⟨c, hc, rfl⟩
      exact hall c hc
    rw [hm]
    rfl
  refine ⟨h1, ?_, ?_⟩
  · rw [h1]
    rfl
  · rw [h1]
    decide

/-- Witness for C7: a single fully-degraded candidate yields a record
displayed as "Unknown Product" while the stored name is empty. -/
theorem unknown_product_display_only_witness :
    displayName (fullRecord
      { batch := [⟨"a.png", "image/png", 100⟩],
        storeRefs := [some "/uploads/a.png"],
        extracted := [emptyCandidate],
        price := PriceOutcome.noResults,
        persistOk := true }).product_name = "Unknown Product" :=
  (unknown_product_display_only
    { batch := [⟨"a.png", "image/png", 100⟩],
      storeRefs := [some "/uploads/a.png"],
      extracted := [emptyCandidate],
      price := PriceOutcome.noResults,
      persistOk := true } (by decide)).2.1

/-- C5: the coerced category always lies in the fixed `CATEGORIES` set,
which contains `Other`; any value outside the set is coerced to `Other`;
every option offered by the edit form's category select lies in the set;
and the merged category of candidates whose categories lie in the set lies
in the set. -/
theorem category_invariant :
    (∀ cat : Option String, coerceCategory cat ∈ CATEGORIES) ∧
    ("Other" ∈ CATEGORIES) ∧
    (∀ s : String, s ∉ CATEGORIES → coerceCategory (some s) = "Other") ∧
    (∀ o ∈ editFormCategoryOptions, o ∈ CATEGORIES) ∧
    (∀ cs : List ExtractionCandidate,
      (∀ c ∈ cs, ∀ x, c.category = some x → x ∈ CATEGORIES) →
      mergeCategory cs ∈ CATEGORIES) := by
  have hother : ("Other" : String) ∈ CATEGORIES := by decide
  refine ⟨?_, hother, ?_, ?_, ?_⟩
  · intro cat
    cases cat with
    | none => exact hother
    | some c =>
      by_cases h : c ∈ CATEGORIES
      · simp [coerceCategory, h]
      · simpa [coerceCategory, h] using hother
  · intro s hs
    simp [coerceCategory, hs]
  · intro o ho
    exact ho
  · intro cs
    induction cs with
    | nil => intro _; exact hother
    | cons c cs ih =>
      intro h
      have htail : ∀ c' ∈ cs, ∀ x, c'.category = some x → x ∈ CATEGORIES :=
        fun c' hm x hx => h c' (by simp [hm]) x hx
      cases hcat : c.category with
      | none =>
        simp only [mergeCategory, hcat]
        exact ih htail
      | some cat =>
        cases he : (cat == "Other") with
        | true =>
          simp only [mergeCategory, hcat, he, if_true]
          exact ih htail
        | false =>
          simp only [mergeCategory, hcat, he, Bool.false_eq_true, if_false]
          exact h c (by simp) cat hcat

/-- Witness for C5: the out-of-set value "Banana" is coerced to `Other`. -/
theorem category_invariant_witness :
    coerceCategory (some "Banana") = "Other" :=
  category_invariant.2.2.1 "Banana" (by decide)

/-- C8: whatever the optional values of a `NutritionInfo`, every key it
presents is one of the seven fixed nutrient keys (energy, protein, fat,
carbs, sugar, fiber, salt) — no other key ever appears. -/
theorem nutrition_keys_fixed :
    ∀ n : NutritionInfo,
      ((nutritionPairs n).all (fun p => decide (p.1 ∈ nutrientKeys)))
        = true := by
  intro n
  obtain ⟨e, pr, fa, ca, su, fi, sa⟩ := n
  cases e <;> cases pr <;> cases fa <;> cases ca <;> cases su <;>
    cases fi <;> cases sa <;> rfl

/-- C10: with category "All" and a whitespace-only query, `filteredProducts`
returns the product list unchanged; for every category and query the
filtered list is a subsequence of the full list (filtering never adds or
reorders products). -/
theorem filter_identity_sublist :
    (∀ (products : List Product) (searchQuery : String),
        trimStr searchQuery = "" →
        filteredProducts products "All" searchQuery = products) ∧
    (∀ (products : List Product) (selectedCategory searchQuery : String),
        List.Sublist (filteredProducts products selectedCategory searchQuery)
          products) := by
  constructor
  · intro ps q hq
    simp [filteredProducts, hq]
  · intro ps c q
    cases hAll : (c == "All") with
    | false =>
      cases hq : (trimStr q == "") with
      | false =>
        simp only [filteredProducts, hAll, hq, Bool.not_false, if_true]
        exact (List.filter_sublist _).trans (List.filter_sublist _)
      | true =>
        simp only [filteredProducts, hAll, hq, Bool.not_false, Bool.not_true,
          Bool.false_eq_true, if_true, if_false]
        exact List.filter_sublist _
    | true =>
      cases hq : (trimStr q == "") with
      | false =>
        simp only [filteredProducts, hAll, hq, Bool.not_false, Bool.not_true,
          Bool.false_eq_true, if_true, if_false]
        exact List.filter_sublist _
      | true =>
        simp only [filteredProducts, hAll, hq, Bool.not_true,
          Bool.false_eq_true, if_false]
        exact List.Sublist.refl _

/-- Witness for C10: a one-product list passes through unchanged when the
category is "All" and the query is a single space. -/
theorem filter_identity_sublist_witness :
    filteredProducts
        [{ product_name := "Choco Bar", manufacturer := "ACME",
           appeals := [], category := "Chocolate", price_info := "¥150",
           product_url := none, image_paths := [] }] "All" " "
      = [{ product_name := "Choco Bar", manufacturer := "ACME",
           appeals := [], category := "Chocolate", price_info := "¥150",
           product_url := none, image_paths := [] }] :=
  filter_identity_sublist.1
    [{ product_name := "Choco Bar", manufacturer := "ACME",
       appeals := [], category := "Chocolate", price_info := "¥150",
       product_url := none, image_paths := [] }] " " (by decide)

end MrSystem
